import Mathlib

/-!
Verification development for the breakpad STABS-extraction and file-identifier
core (`src/common/linux/dump_stabs.h`, `src/common/linux/file_id_unittest.cc`).

The repository snapshot contains the class declaration `dump_stabs.h` and the
unit tests `file_id_unittest.cc`, but not the member-function definitions
(`dump_stabs.cc`) nor the identifier implementation (`file_id.cc`).  The
operational behaviour of those missing functions is therefore modelled from
the specification's description of the extraction handler (spec sections 3,
4.1, 4.2, 6, 7) and of the binary identifier computer (spec section 4.3).
Constants and field names present in `dump_stabs.h` (such as
`kFallbackSize`, `boundaries_`, `comp_unit_base_address_`,
`current_source_file_name_`) are taken from that header directly.

Addresses are modelled as `Nat` carrying `uint64_t` values; every subtraction
performed by the code that could wrap is modelled with an explicit
`% 2 ^ 64` (`wsub` below).  All definitions are executable.
-/

namespace Breakpad

/-- The modulus of `uint64_t` arithmetic. -/
def U64 : Nat := 2 ^ 64

/-- Unsigned 64-bit subtraction `a - b`: the result the C++ expression
yields on `uint64_t` operands, expressed on `Nat` with an explicit
modulus. -/
def wsub (a b : Nat) : Nat := (a + U64 - b % U64) % U64

/-- Modelled from the spec: a `Module::File` entity of the missing
`common/linux/module.h`.  A File is "identified by its name string"; the `id`
field models the entity's identity (the C++ object's address), so that
"at most one File entity per distinct name" is a statable property. -/
structure Module.File where
  id : Nat
  name : String
deriving DecidableEq, Repr

/-- Modelled from the spec: a `Module::Line` of the missing
`common/linux/module.h`: `{ address, size, file (shared reference),
line_number }`.  The shared File reference is modelled by the File id. -/
structure Module.Line where
  address : Nat
  size : Nat
  file : Nat
  number : Int
deriving DecidableEq, Repr

/-- Modelled from the spec: a `Module::Function` of the missing
`common/linux/module.h`: `{ name, address, size, lines }`.  The `retained`
flag models the spec's "marked for exclusion from the final model"
(section 4.1, `StartFunction`): an artifact function is still tracked but is
excluded when `Finalize` commits functions to the module. -/
structure Module.Function where
  name : String
  address : Nat
  size : Nat
  lines : List Module.Line
  retained : Bool
deriving DecidableEq, Repr

/-- Modelled from the spec: the Symbol Model (`Module`) of the missing
`common/linux/module.h`; it owns Functions and Files and exposes
`GetOrCreateFile` and `AddFunction` (spec section 6).  `nextFileId` models
the allocation of a fresh File entity. -/
structure Module where
  functions : List Module.Function
  files : List Module.File
  nextFileId : Nat
deriving DecidableEq, Repr

/-- Modelled from the spec: the Symbol Model's name-keyed get-or-create File
lookup (`GetOrCreateFile(name) -> File`, spec section 6): return the File
already interned under `name`, or intern a fresh one. -/
def Module.FindFile (m : Module) (name : String) : Nat × Module :=
  match m.files.find? (fun f => f.name = name) with
  | some f => (f.id, m)
  | none =>
      (m.nextFileId,
       { m with files := m.files ++ [{ id := m.nextFileId, name := name }],
                nextFileId := m.nextFileId + 1 })

/-- The state of a `DumpStabsHandler` (fields from `dump_stabs.h` lines
92-124: `module_`, `comp_unit_base_address_`, `current_function_`,
`current_source_file_`, `current_source_file_name_`, `functions_`,
`boundaries_`).  `in_compilation_unit_` is modelled from the spec
(section 4.1: `StartCompilationUnit` "fails only if called while a unit is
already open").  The `.stabstr` pointer cached in
`current_source_file_name_` is modelled as a `Nat` pointer value. -/
structure DumpStabsHandler where
  module_ : Module
  comp_unit_base_address_ : Nat
  in_compilation_unit_ : Bool
  current_function_ : Option Module.Function
  current_source_file_ : Nat
  current_source_file_name_ : Option Nat
  functions_ : List Module.Function
  boundaries_ : List Nat
deriving DecidableEq, Repr

/-- From `dump_stabs.h` line 89: the arbitrary, but very large, size used
for functions whose size cannot be computed properly. -/
def kFallbackSize : Nat := 0x10000000

/-- The handler as constructed by `DumpStabsHandler(Module*)`
(`dump_stabs.h` lines 62-67), attached to an empty module. -/
def initHandler : DumpStabsHandler :=
  { module_ := { functions := [], files := [], nextFileId := 0 },
    comp_unit_base_address_ := 0,
    in_compilation_unit_ := false,
    current_function_ := none,
    current_source_file_ := 0,
    current_source_file_name_ := none,
    functions_ := [],
    boundaries_ := [] }

/-- Modelled from the spec (section 4.1, missing `dump_stabs.cc`):
`StartCompilationUnit` opens a unit, records `base_address`, and "fails
(returns false, aborting extraction) only if called while a unit is already
open".  Opening a unit resets the source-file cache ("a new compilation unit
resets function context"). -/
def DumpStabsHandler.StartCompilationUnit (s : DumpStabsHandler)
    (_name : String) (address : Nat) (_buildDirectory : String) :
    Bool × DumpStabsHandler :=
  if s.in_compilation_unit_ then (false, s)
  else
    (true,
     { s with in_compilation_unit_ := true,
              comp_unit_base_address_ := address,
              current_source_file_name_ := none })

/-- Move the current function, if any, onto the `functions_` list (they are
committed to the module only at `Finalize`, per `dump_stabs.h` lines 96-103). -/
def DumpStabsHandler.closeFunction (s : DumpStabsHandler) : DumpStabsHandler :=
  match s.current_function_ with
  | none => s
  | some f =>
      { s with functions_ := s.functions_ ++ [f], current_function_ := none }

/-- Modelled from the spec (section 4.1, missing `dump_stabs.cc`):
`EndCompilationUnit` closes the current unit; "any unterminated Function is
implicitly closed at `address`"; the unit's end address is a boundary
(section 3).  Calling it with no open unit is a protocol violation reported
by returning false (section 7). -/
def DumpStabsHandler.EndCompilationUnit (s : DumpStabsHandler)
    (address : Nat) : Bool × DumpStabsHandler :=
  if s.in_compilation_unit_ then
    let s' := s.closeFunction
    (true,
     { s' with in_compilation_unit_ := false,
               comp_unit_base_address_ := 0,
               current_source_file_name_ := none,
               boundaries_ := s'.boundaries_ ++ [address] })
  else (false, s)

/-- Modelled from the spec (section 4.1, missing `dump_stabs.cc`):
`StartFunction` begins a new Function at `address`, applies the
compilation-unit-boundary compatibility filter of section 3 (a function whose
start address falls at or below the unit's recorded base address is an
artifact: "it is still tracked (so its address contributes to the boundary
set ...) but is marked for exclusion from the final model"), and contributes
the function's start address to the boundary set.  Starting a function while
one is already open is a protocol violation reported by returning false
(section 7). -/
def DumpStabsHandler.StartFunction (s : DumpStabsHandler)
    (name : String) (address : Nat) : Bool × DumpStabsHandler :=
  match s.current_function_ with
  | some _ => (false, s)
  | none =>
      (true,
       { s with
           current_function_ := some
             { name := name, address := address, size := 0, lines := [],
               retained := decide (s.comp_unit_base_address_ < address) },
           boundaries_ := s.boundaries_ ++ [address] })

/-- Modelled from the spec (section 4.1, missing `dump_stabs.cc`):
`EndFunction` closes the current Function and "registers `address` as a
boundary".  Ending a function with none open is a protocol violation
reported by returning false (section 7). -/
def DumpStabsHandler.EndFunction (s : DumpStabsHandler)
    (address : Nat) : Bool × DumpStabsHandler :=
  match s.current_function_ with
  | none => (false, s)
  | some _ =>
      let s' := s.closeFunction
      (true, { s' with boundaries_ := s'.boundaries_ ++ [address] })

/-- Modelled from the spec (section 4.1, missing `dump_stabs.cc`): `Line`
appends a Line to the current Function; "File lookup uses the
pointer-equality fast path first (if `file_name`'s underlying storage pointer
equals the cached pointer from the previous call, reuse the cached File
without a model lookup); otherwise performs a get-or-create against the
Symbol Model's File table.  Fails if called outside an open Function."
The `.stabstr` pointer of the name is the `ptr` argument; the textual name is
the `name` argument. -/
def DumpStabsHandler.Line (s : DumpStabsHandler) (address : Nat)
    (ptr : Nat) (name : String) (number : Int) : Bool × DumpStabsHandler :=
  match s.current_function_ with
  | none => (false, s)
  | some f =>
      let idm : Nat × Module :=
        if s.current_source_file_name_ = some ptr
        then (s.current_source_file_, s.module_)
        else s.module_.FindFile name
      (true,
       { s with
           module_ := idm.2,
           current_source_file_ := idm.1,
           current_source_file_name_ := some ptr,
           current_function_ := some
             { f with lines := f.lines ++
                 [{ address := address, size := 0, file := idm.1,
                    number := number }] } })

/-- The smallest element of `bs` strictly greater than `x`, if any.  This is
the value the spec's finalization step obtains by sorting the boundary set
and binary-searching it ("find the smallest boundary strictly greater than
the Function's address", section 4.2); sorting plus `upper_bound` and this
direct minimum agree, so the model computes the minimum directly. -/
def leastGreater : List Nat → Nat → Option Nat
  | [], _ => none
  | b :: bs, x =>
      match leastGreater bs x with
      | none => if x < b then some b else none
      | some c => if x < b then some (min b c) else some c

/-- Modelled from the spec (section 4.2): the size assigned to a retained
Function at `address`: the nearest strictly greater boundary minus the
address, or `kFallbackSize` when no boundary lies strictly above. -/
def finalSize (bs : List Nat) (address : Nat) : Nat :=
  match leastGreater bs address with
  | some b => b - address
  | none => kFallbackSize

/-- Stable insertion of a Line into a list sorted by address: `x` is placed
before every later element of equal address, preserving processing order
among duplicates (spec section 4.2 tie-break: the later entry wins;
"earlier duplicates end up with size 0"). -/
def insertLine (x : Module.Line) : List Module.Line → List Module.Line
  | [] => [x]
  | y :: ys =>
      if y.address < x.address then y :: insertLine x ys else x :: y :: ys

/-- Stable sort of a Function's Lines by address (the spec's
`stable_sort` over `Module::Line::CompareByAddress`). -/
def sortLines : List Module.Line → List Module.Line
  | [] => []
  | x :: xs => insertLine x (sortLines xs)

/-- Modelled from the spec (section 4.2): assign sizes to a Function's
sorted Lines.  Each Line extends to the nearest following boundary — the
next Line's start — and the last Line extends to `fend`, "the Function's own
end address as an implicit trailing boundary so a Function's last Line never
extends past its Function".  The subtraction is `uint64_t` subtraction. -/
def sizeLines (fend : Nat) : List Module.Line → List Module.Line
  | [] => []
  | [l] => [{ l with size := wsub fend l.address }]
  | l :: l' :: rest =>
      { l with size := wsub l'.address l.address } ::
        sizeLines fend (l' :: rest)

/-- Modelled from the spec (section 4.2): the range finalization of one
retained Function: compute its size from the boundary set, then size its
Lines against the function end `address + size` (a `uint64_t` sum). -/
def sizeFunction (bs : List Nat) (f : Module.Function) : Module.Function :=
  let sz := finalSize bs f.address
  { f with size := sz,
           lines := sizeLines ((f.address + sz) % U64) (sortLines f.lines) }

/-- Modelled from the spec (sections 4.1 and 4.2, missing `dump_stabs.cc`):
`Finalize` "performs the deferred range computation and commits all retained
Functions (excluding filtered artifacts) into the Symbol Model". -/
def DumpStabsHandler.Finalize (s : DumpStabsHandler) : Module :=
  { s.module_ with
      functions := s.module_.functions ++
        (s.functions_.filter (fun f => f.retained)).map
          (sizeFunction s.boundaries_) }

/-- One parse event delivered by the driving STABS tokenizer
(spec section 6). -/
inductive Event where
  | startCU (name : String) (address : Nat) (buildDirectory : String)
  | endCU (address : Nat)
  | startFunc (name : String) (address : Nat)
  | endFunc (address : Nat)
  | line (address : Nat) (ptr : Nat) (name : String) (number : Int)
  | warning (message : String)
deriving DecidableEq, Repr

/-- Dispatch one tokenizer event to the handler callback it names.
`Warning` is the non-fatal diagnostic sink and never changes the state. -/
def step (e : Event) (s : DumpStabsHandler) : Bool × DumpStabsHandler :=
  match e with
  | .startCU n a b => s.StartCompilationUnit n a b
  | .endCU a => s.EndCompilationUnit a
  | .startFunc n a => s.StartFunction n a
  | .endFunc a => s.EndFunction a
  | .line a p n num => s.Line a p n num
  | .warning _ => (true, s)

/-- Run a sequence of tokenizer events.  A callback that returns false
leaves the state unchanged, so on an in-protocol run (`runOk`) this equals
the real driver, which stops invoking callbacks after a false return. -/
def runEvents : List Event → DumpStabsHandler → DumpStabsHandler
  | [], s => s
  | e :: es, s => runEvents es (step e s).2

/-- Every callback of the run returned true (the run is in protocol and the
tokenizer never had to stop early). -/
def runOk : List Event → DumpStabsHandler → Bool
  | [], _ => true
  | e :: es, s => (step e s).1 && runOk es (step e s).2

/-- The module produced by feeding a whole event trace to a fresh handler
and then calling `Finalize`. -/
def finalizeRun (t : List Event) : Module :=
  (runEvents t initHandler).Finalize

/-- The boundary set of a trace exactly as claim C1's parenthetical words it:
"every Function start, every Line start, and every compilation-unit end".
Stated for comparison with the handler's operational `boundaries_`. -/
def c1ClaimBoundaries : List Event → List Nat
  | [] => []
  | .startFunc _ a :: es => a :: c1ClaimBoundaries es
  | .line a _ _ _ :: es => a :: c1ClaimBoundaries es
  | .endCU a :: es => a :: c1ClaimBoundaries es
  | _ :: es => c1ClaimBoundaries es

/-- The boundary addresses a trace of successful callbacks registers, per the
per-callback contract of spec section 4.1: every `StartFunction` address
(also for filtered artifact functions), every `EndFunction` address, and
every `EndCompilationUnit` address.  `Line` registers no boundary. -/
def traceBoundaries : List Event → List Nat
  | [] => []
  | .startFunc _ a :: es => a :: traceBoundaries es
  | .endFunc a :: es => a :: traceBoundaries es
  | .endCU a :: es => a :: traceBoundaries es
  | _ :: es => traceBoundaries es

/-- Does the event start a function at address `a`? -/
def isStartFuncAt (a : Nat) : Event → Bool
  | .startFunc _ a' => a' = a
  | _ => false

/-- The word class recorded in an ELF header's class field, when it denotes
a recognized width. -/
inductive ElfWordClass where
  | elfclass32
  | elfclass64
deriving DecidableEq, Repr

/-- Modelled from the spec (section 4.3, missing `common/linux/file_id.cc`):
the facts about a mapped ELF image that the identifier computer consumes.
`validMagic` is false for an unrecognizable image (bad magic, truncated
header); `elfClass` is `none` when the class field denotes neither 32- nor
64-bit; `buildIdNote` holds the payload bytes of a "GNU build identifier"
note when the program/section headers contain one; `textSection` holds the
code section's bytes when present; `otherSections` holds the remaining
(symbol, debug, ...) sections, which the identifier never consults. -/
structure ElfImage where
  validMagic : Bool
  elfClass : Option ElfWordClass
  buildIdNote : Option (List Nat)
  textSection : Option (List Nat)
  otherSections : List (String × List Nat)
deriving DecidableEq, Repr

/-- The identifier size: `sizeof(MDGUID)` bytes. -/
def kMDGUIDSize : Nat := 16

/-- XOR a block's bytes into the identifier accumulator, lane by lane; a
block shorter than the accumulator leaves the remaining lanes unchanged. -/
def xorInto : List Nat → List Nat → List Nat
  | [], _ => []
  | acc, [] => acc
  | a :: acc, b :: blk => (a ^^^ b) :: xorInto acc blk

/-- Partition a byte list into consecutive 16-byte blocks; the final block
keeps only the bytes actually present.  Block `i` is the 16 bytes starting
at offset `16 * i`. -/
def chunks16 (l : List Nat) : List (List Nat) :=
  (List.range ((l.length + 15) / 16)).map
    (fun i => (l.drop (16 * i)).take 16)

/-- Modelled from the spec (section 4.3 step 3, missing
`common/linux/file_id.cc`): the 16-byte digest of the code section —
partition its bytes into consecutive 16-byte blocks (a short final block is
treated as present-length only) and combine all blocks into one 16-byte
accumulator via byte-wise exclusive-or per lane index. -/
def elfDigest (text : List Nat) : List Nat :=
  (chunks16 text).foldl xorInto (List.replicate kMDGUIDSize 0)

/-- Modelled from the spec (section 4.3, missing `common/linux/file_id.cc`):
`FileID::ElfFileIdentifierFromMappedFile`.  Fail on an unrecognizable image
or unrecognized class; prefer the first 16 bytes of a GNU build-id note's
payload (zero-padded if the note is shorter); otherwise digest the code
section; fail if the code section is missing or empty. -/
def FileID.ElfFileIdentifierFromMappedFile (img : ElfImage) :
    Option (List Nat) :=
  if img.validMagic = false then none
  else
    match img.elfClass with
    | none => none
    | some _ =>
        match img.buildIdNote with
        | some payload =>
            some (payload.take kMDGUIDSize ++
              List.replicate (kMDGUIDSize - payload.length) 0)
        | none =>
            match img.textSection with
            | none => none
            | some text =>
                if text.isEmpty then none else some (elfDigest text)

/-- The sixteen lowercase hexadecimal digit characters, `0`-`9` then
`a`-`f` (code points 48-57 and 97-102). -/
def lowercaseHexDigits : List Char :=
  (List.range 16).map
    (fun n => Char.ofNat (if n < 10 then 48 + n else 87 + n))

/-- The lowercase hexadecimal digit for a value below 16. -/
def hexDigitChar (n : Nat) : Char :=
  lowercaseHexDigits.getD n 'f'

/-- The two lowercase hexadecimal digits of one byte (`%02x`). -/
def byteHexChars (b : Nat) : List Char :=
  [hexDigitChar (b / 16 % 16), hexDigitChar (b % 16)]

/-- The lowercase hexadecimal rendering of a byte list. -/
def hexCat (l : List Nat) : List Char :=
  l.foldr (fun b acc => byteHexChars b ++ acc) []

/-- Modelled from the spec (section 4.3, missing `common/linux/file_id.cc`):
`FileID::ConvertIdentifierToString` renders the 16 identifier bytes as
lowercase hex digits grouped 4-2-2-2-6 with hyphen separators. -/
def FileID.ConvertIdentifierToString (id : List Nat) : String :=
  String.mk
    (hexCat (id.take 4) ++ '-' ::
      (hexCat ((id.drop 4).take 2) ++ '-' ::
        (hexCat ((id.drop 6).take 2) ++ '-' ::
          (hexCat ((id.drop 8).take 2) ++ '-' ::
            hexCat (id.drop 10)))))

/-- The value of one lowercase hexadecimal digit, if it is one: the
digit's position in `lowercaseHexDigits`. -/
def hexCharVal (c : Char) : Option Nat :=
  lowercaseHexDigits.findIdx? (fun d => d = c)

/-- Parse an even-length run of hexadecimal digits back into bytes. -/
def parseHexBytes : List Char → Option (List Nat)
  | [] => some []
  | [_] => none
  | c1 :: c2 :: rest =>
      match hexCharVal c1, hexCharVal c2, parseHexBytes rest with
      | some h, some lo, some bs => some ((h * 16 + lo) :: bs)
      | _, _, _ => none

/-- Parse an identifier string back into its 16 bytes: drop the hyphen
separators and read the hexadecimal digit pairs. -/
def parseIdentifierString (s : String) : Option (List Nat) :=
  parseHexBytes (s.data.filter (fun c => c ≠ '-'))

lemma xorInto_length (acc blk : List Nat) :
    (xorInto acc blk).length = acc.length := by
  induction acc generalizing blk with
  | nil => simp [xorInto]
  | cons a acc ih =>
      cases blk with
      | nil => simp [xorInto]
      | cons b blk => simp [xorInto, ih]

lemma foldl_xorInto_length (blocks : List (List Nat)) (acc : List Nat) :
    (blocks.foldl xorInto acc).length = acc.length := by
  induction blocks generalizing acc with
  | nil => rfl
  | cons blk blocks ih => simp [List.foldl_cons, ih, xorInto_length]

lemma elfDigest_length (text : List Nat) : (elfDigest text).length = 16 := by
  simp [elfDigest, foldl_xorInto_length, kMDGUIDSize]

/-- Claim C2: `ComputeIdentifier` on an ELF image holding a GNU build-id
note whose payload has at least 16 bytes returns exactly the first 16 bytes
of the payload, identically for the 32-bit and the 64-bit class variant of
an otherwise-identical image. -/
theorem buildid_note_first16_class_invariant (p : List Nat)
    (h16 : 16 ≤ p.length) (text : Option (List Nat))
    (others : List (String × List Nat)) :
    FileID.ElfFileIdentifierFromMappedFile
        { validMagic := true, elfClass := some .elfclass32,
          buildIdNote := some p, textSection := text,
          otherSections := others } = some (p.take 16) ∧
    FileID.ElfFileIdentifierFromMappedFile
        { validMagic := true, elfClass := some .elfclass64,
          buildIdNote := some p, textSection := text,
          otherSections := others } = some (p.take 16) ∧
    (p.take 16).length = 16 := by
  have hz : 16 - p.length = 0 := Nat.sub_eq_zero_of_le h16
  refine ⟨?_, ?_, ?_⟩ <;>
    simp [FileID.ElfFileIdentifierFromMappedFile, kMDGUIDSize, hz,
      Nat.min_eq_left h16]

/-- Claim C2 witness: the build-id unit test's identifier bytes `00 .. 0F`. -/
theorem buildid_note_first16_witness :
    FileID.ElfFileIdentifierFromMappedFile
        { validMagic := true, elfClass := some .elfclass32,
          buildIdNote := some (List.range 16),
          textSection := some (List.replicate 4096 0),
          otherSections := [] } = some ((List.range 16).take 16) ∧
    FileID.ElfFileIdentifierFromMappedFile
        { validMagic := true, elfClass := some .elfclass64,
          buildIdNote := some (List.range 16),
          textSection := some (List.replicate 4096 0),
          otherSections := [] } = some ((List.range 16).take 16) ∧
    ((List.range 16).take 16).length = 16 :=
  buildid_note_first16_class_invariant (List.range 16) (by decide)
    (some (List.replicate 4096 0)) []

/-- Claim C4: two ELF images that differ only in word class but have
byte-identical code sections and no build-id note receive the same 16-byte
digest as identifier. -/
theorem digest_class_invariant (text : List Nat) (h : text ≠ [])
    (others : List (String × List Nat)) :
    FileID.ElfFileIdentifierFromMappedFile
        { validMagic := true, elfClass := some .elfclass32,
          buildIdNote := none, textSection := some text,
          otherSections := others } =
      FileID.ElfFileIdentifierFromMappedFile
        { validMagic := true, elfClass := some .elfclass64,
          buildIdNote := none, textSection := some text,
          otherSections := others } ∧
    FileID.ElfFileIdentifierFromMappedFile
        { validMagic := true, elfClass := some .elfclass32,
          buildIdNote := none, textSection := some text,
          otherSections := others } = some (elfDigest text) ∧
    (elfDigest text).length = 16 := by
  refine ⟨?_, ?_, elfDigest_length text⟩ <;>
    simp [FileID.ElfFileIdentifierFromMappedFile, List.isEmpty_iff, h]

/-- Claim C4 witness: the `FileIDTest.ElfClass` text section, 128 bytes
`(3 * i) mod 256`. -/
theorem digest_class_invariant_witness :
    FileID.ElfFileIdentifierFromMappedFile
        { validMagic := true, elfClass := some .elfclass32,
          buildIdNote := none,
          textSection := some ((List.range 128).map (fun i => i * 3 % 256)),
          otherSections := [] } =
      FileID.ElfFileIdentifierFromMappedFile
        { validMagic := true, elfClass := some .elfclass64,
          buildIdNote := none,
          textSection := some ((List.range 128).map (fun i => i * 3 % 256)),
          otherSections := [] } ∧
    FileID.ElfFileIdentifierFromMappedFile
        { validMagic := true, elfClass := some .elfclass32,
          buildIdNote := none,
          textSection := some ((List.range 128).map (fun i => i * 3 % 256)),
          otherSections := [] } =
      some (elfDigest ((List.range 128).map (fun i => i * 3 % 256))) ∧
    (elfDigest ((List.range 128).map (fun i => i * 3 % 256))).length = 16 :=
  digest_class_invariant ((List.range 128).map (fun i => i * 3 % 256))
    (by decide) []

lemma xorInto_getD (acc blk : List Nat) (hlen : blk.length ≤ acc.length)
    (j : Nat) :
    (xorInto acc blk).getD j 0 = (acc.getD j 0) ^^^ (blk.getD j 0) := by
  induction acc generalizing blk j with
  | nil =>
      have : blk = [] := List.length_eq_zero.mp (Nat.le_zero.mp hlen)
      subst this
      simp [xorInto]
  | cons a acc ih =>
      cases blk with
      | nil => simp [xorInto]
      | cons b blk =>
          cases j with
          | zero => simp [xorInto]
          | succ j =>
              simp only [xorInto, List.getD_cons_succ]
              exact ih blk (Nat.le_of_succ_le_succ hlen) j

lemma foldl_xorInto_getD (blocks : List (List Nat)) (acc : List Nat)
    (hacc : ∀ blk ∈ blocks, blk.length ≤ acc.length) (j : Nat) :
    (blocks.foldl xorInto acc).getD j 0 =
      blocks.foldl (fun v blk => v ^^^ blk.getD j 0) (acc.getD j 0) := by
  induction blocks generalizing acc with
  | nil => rfl
  | cons blk blocks ih =>
      simp only [List.foldl_cons]
      rw [ih (xorInto acc blk)
        (fun b hb => (xorInto_length acc blk).symm ▸ hacc b (by simp [hb])),
        xorInto_getD acc blk (hacc blk (by simp)) j]

lemma chunks16_block_length (l : List Nat) :
    ∀ blk ∈ chunks16 l, blk.length ≤ 16 := by
  intro blk hblk
  rcases List.mem_map.mp hblk with ⟨i, _, rfl⟩
  simp only [List.length_take]
  omega

lemma getD_replicate_zero (n j : Nat) :
    (List.replicate n (0 : Nat)).getD j 0 = 0 := by
  induction n generalizing j with
  | zero => simp
  | succ n ih =>
      cases j with
      | zero => simp [List.replicate_succ]
      | succ j =>
          rw [List.replicate_succ, List.getD_cons_succ]
          exact ih j

/-- Claim C3: with no build-id note and a non-empty code section, the
identifier is the byte-wise XOR fold of the code section's consecutive
16-byte blocks: lane `j` of the digest is the XOR of byte `j` of every
block, a short final block contributing only its present bytes
(absent lanes contribute 0). -/
theorem digest_lane_xor_fold (text : List Nat) (h : text ≠ [])
    (cls : ElfWordClass) (others : List (String × List Nat)) :
    FileID.ElfFileIdentifierFromMappedFile
        { validMagic := true, elfClass := some cls, buildIdNote := none,
          textSection := some text, otherSections := others } =
      some (elfDigest text) ∧
    (elfDigest text).length = 16 ∧
    ∀ j < 16, (elfDigest text).getD j 0 =
      (chunks16 text).foldl (fun v blk => v ^^^ blk.getD j 0) 0 := by
  refine ⟨?_, elfDigest_length text, ?_⟩
  · simp [FileID.ElfFileIdentifierFromMappedFile, List.isEmpty_iff, h]
  · intro j _
    have hacc : ∀ blk ∈ chunks16 text,
        blk.length ≤ (List.replicate kMDGUIDSize (0 : Nat)).length := by
      intro blk hblk
      simpa [kMDGUIDSize] using chunks16_block_length text blk hblk
    rw [elfDigest, foldl_xorInto_getD (chunks16 text) _ hacc j,
      getD_replicate_zero]

/-- Claim C3 witness: a 20-byte section (one full block and one short
block). -/
theorem digest_lane_xor_fold_witness :
    FileID.ElfFileIdentifierFromMappedFile
        { validMagic := true, elfClass := some .elfclass32,
          buildIdNote := none,
          textSection := some (List.range 20), otherSections := [] } =
      some (elfDigest (List.range 20)) ∧
    (elfDigest (List.range 20)).length = 16 ∧
    ∀ j < 16, (elfDigest (List.range 20)).getD j 0 =
      (chunks16 (List.range 20)).foldl
        (fun v blk => v ^^^ blk.getD j 0) 0 :=
  digest_lane_xor_fold (List.range 20) (by decide) .elfclass32 []

set_option maxRecDepth 4096 in
/-- The `FileIDTest.ElfClass` expectation, checked against the model: the
digest of the 128-byte section `(3 * i) mod 256` renders as the string the
unit test expects. -/
theorem elfclass_unittest_digest_string :
    FileID.ConvertIdentifierToString
        (elfDigest ((List.range 128).map (fun i => i * 3 % 256))) =
      "80808080-8080-0000-0000-008080808080" := by
  decide

/-- The `FileIDTest.BuildID` expectation, checked against the model: the
identifier `00 01 .. 0f` renders as the hyphen-grouped string the unit test
builds. -/
theorem buildid_unittest_identifier_string :
    FileID.ConvertIdentifierToString (List.range 16) =
      "00010203-0405-0607-0809-0a0b0c0d0e0f" := by
  decide

lemma hexCharVal_hexDigitChar : ∀ n < 16, hexCharVal (hexDigitChar n) = some n := by
  decide

lemma hexDigitChar_mem (n : Nat) : hexDigitChar n ∈ lowercaseHexDigits := by
  by_cases h : n < 16
  · exact (by decide : ∀ m < 16, hexDigitChar m ∈ lowercaseHexDigits) n h
  · have : lowercaseHexDigits.length ≤ n := by
      simp only [lowercaseHexDigits, List.length_map, List.length_range]
      omega
    rw [hexDigitChar, List.getD_eq_default _ _ this]
    decide

lemma mem_lowercaseHexDigits_ne_hyphen :
    ∀ c ∈ lowercaseHexDigits, c ≠ '-' := by
  decide

lemma hexCat_cons (b : Nat) (l : List Nat) :
    hexCat (b :: l) = byteHexChars b ++ hexCat l := rfl

lemma hexCat_append (l1 l2 : List Nat) :
    hexCat (l1 ++ l2) = hexCat l1 ++ hexCat l2 := by
  induction l1 with
  | nil => rfl
  | cons b l ih =>
      rw [List.cons_append, hexCat_cons, hexCat_cons, ih, List.append_assoc]

lemma hexCat_length (l : List Nat) : (hexCat l).length = 2 * l.length := by
  induction l with
  | nil => rfl
  | cons b l ih =>
      rw [hexCat_cons, List.length_append, ih]
      simp [byteHexChars]
      omega

lemma mem_hexCat (c : Char) (l : List Nat) (h : c ∈ hexCat l) :
    c ∈ lowercaseHexDigits := by
  induction l with
  | nil => simp [hexCat] at h
  | cons b l ih =>
      rw [hexCat_cons] at h
      rcases List.mem_append.mp h with h | h
      · simp only [byteHexChars, List.mem_cons, List.not_mem_nil,
          or_false] at h
        rcases h with rfl | rfl <;> exact hexDigitChar_mem _
      · exact ih h

lemma filter_hexCat (l : List Nat) :
    (hexCat l).filter (fun c => c ≠ '-') = hexCat l := by
  rw [List.filter_eq_self]
  intro c hc
  simpa using mem_lowercaseHexDigits_ne_hyphen c (mem_hexCat c l hc)

lemma parseHexBytes_hexCat (l : List Nat) (h : ∀ b ∈ l, b < 256) :
    parseHexBytes (hexCat l) = some l := by
  induction l with
  | nil => rfl
  | cons b l ih =>
      have hb : b < 256 := h b (by simp)
      have h1 : b / 16 % 16 < 16 := Nat.mod_lt _ (by omega)
      have h2 : b % 16 < 16 := Nat.mod_lt _ (by omega)
      have : hexCat (b :: l) =
          hexDigitChar (b / 16 % 16) :: hexDigitChar (b % 16) :: hexCat l := rfl
      rw [this, parseHexBytes, hexCharVal_hexDigitChar _ h1,
        hexCharVal_hexDigitChar _ h2, ih (fun x hx => h x (by simp [hx]))]
      show some ((b / 16 % 16 * 16 + b % 16) :: l) = some (b :: l)
      have hv : b / 16 % 16 * 16 + b % 16 = b := by omega
      rw [hv]

/-- Claim C9: for every 16-byte identifier, `ConvertIdentifierToString`
renders it as a 36-character string of lowercase hexadecimal digits grouped
4-2-2-2-6 bytes with hyphen separators, and parsing the string back to bytes
recovers the identifier exactly — regardless of how the identifier was
derived. -/
theorem convert_identifier_round_trip (id : List Nat) (hlen : id.length = 16)
    (hb : ∀ b ∈ id, b < 256) :
    (FileID.ConvertIdentifierToString id).length = 36 ∧
    parseIdentifierString (FileID.ConvertIdentifierToString id) = some id ∧
    ∃ g1 g2 g3 g4 g5 : List Char,
      (FileID.ConvertIdentifierToString id).data =
        g1 ++ '-' :: (g2 ++ '-' :: (g3 ++ '-' :: (g4 ++ '-' :: g5))) ∧
      g1.length = 8 ∧ g2.length = 4 ∧ g3.length = 4 ∧ g4.length = 4 ∧
      g5.length = 12 ∧
      (∀ c, c ∈ g1 ∨ c ∈ g2 ∨ c ∈ g3 ∨ c ∈ g4 ∨ c ∈ g5 →
        c ∈ lowercaseHexDigits) := by
  have hdata : (FileID.ConvertIdentifierToString id).data =
      hexCat (id.take 4) ++ '-' ::
        (hexCat ((id.drop 4).take 2) ++ '-' ::
          (hexCat ((id.drop 6).take 2) ++ '-' ::
            (hexCat ((id.drop 8).take 2) ++ '-' ::
              hexCat (id.drop 10)))) := rfl
  have l1 : (id.take 4).length = 4 := by
    rw [List.length_take, hlen]
    decide
  have l2 : ((id.drop 4).take 2).length = 2 := by
    rw [List.length_take, List.length_drop, hlen]
    decide
  have l3 : ((id.drop 6).take 2).length = 2 := by
    rw [List.length_take, List.length_drop, hlen]
    decide
  have l4 : ((id.drop 8).take 2).length = 2 := by
    rw [List.length_take, List.length_drop, hlen]
    decide
  have l5 : (id.drop 10).length = 6 := by
    rw [List.length_drop, hlen]
  have hre : id.take 4 ++ ((id.drop 4).take 2 ++ ((id.drop 6).take 2 ++
      ((id.drop 8).take 2 ++ id.drop 10))) = id := by
    have e4 : (id.drop 4).drop 2 = id.drop 6 := by
      rw [List.drop_drop]
    have e6 : (id.drop 6).drop 2 = id.drop 8 := by
      rw [List.drop_drop]
    have e8 : (id.drop 8).drop 2 = id.drop 10 := by
      rw [List.drop_drop]
    conv_rhs => rw [← List.take_append_drop 4 id,
      ← List.take_append_drop 2 (id.drop 4), e4,
      ← List.take_append_drop 2 (id.drop 6), e6,
      ← List.take_append_drop 2 (id.drop 8), e8]
  refine ⟨?_, ?_, ?_⟩
  · show (FileID.ConvertIdentifierToString id).data.length = 36
    rw [hdata]
    simp only [List.length_append, List.length_cons, hexCat_length,
      l1, l2, l3, l4, l5]
  · rw [parseIdentifierString, hdata]
    simp only [List.filter_append, List.filter_cons, filter_hexCat]
    norm_num
    rw [← hexCat_append, ← hexCat_append, ← hexCat_append, ← hexCat_append,
      hre]
    exact parseHexBytes_hexCat id hb
  · refine ⟨hexCat (id.take 4), hexCat ((id.drop 4).take 2),
      hexCat ((id.drop 6).take 2), hexCat ((id.drop 8).take 2),
      hexCat (id.drop 10), hdata, ?_, ?_, ?_, ?_, ?_, ?_⟩
    · rw [hexCat_length, l1]
    · rw [hexCat_length, l2]
    · rw [hexCat_length, l3]
    · rw [hexCat_length, l4]
    · rw [hexCat_length, l5]
    · intro c hc
      rcases hc with h | h | h | h | h <;> exact mem_hexCat c _ h

/-- Claim C9 witness: the identifier `00 01 .. 0f` from the BuildID unit
test renders and parses back exactly. -/
theorem convert_identifier_round_trip_witness :
    (FileID.ConvertIdentifierToString (List.range 16)).length = 36 ∧
    parseIdentifierString
        (FileID.ConvertIdentifierToString (List.range 16)) =
      some (List.range 16) ∧
    ∃ g1 g2 g3 g4 g5 : List Char,
      (FileID.ConvertIdentifierToString (List.range 16)).data =
        g1 ++ '-' :: (g2 ++ '-' :: (g3 ++ '-' :: (g4 ++ '-' :: g5))) ∧
      g1.length = 8 ∧ g2.length = 4 ∧ g3.length = 4 ∧ g4.length = 4 ∧
      g5.length = 12 ∧
      (∀ c, c ∈ g1 ∨ c ∈ g2 ∨ c ∈ g3 ∨ c ∈ g4 ∨ c ∈ g5 →
        c ∈ lowercaseHexDigits) :=
  convert_identifier_round_trip (List.range 16) (by decide) (by decide)

/-- Claim C10: the identifier never consults the sections a `strip` removes:
replacing the other (symbol, debug, ...) sections leaves both the 16-byte
identifier and its rendered string unchanged, for every image. -/
theorem identifier_strip_invariant (img : ElfImage)
    (stripped : List (String × List Nat)) :
    FileID.ElfFileIdentifierFromMappedFile
        { img with otherSections := stripped } =
      FileID.ElfFileIdentifierFromMappedFile img ∧
    (FileID.ElfFileIdentifierFromMappedFile
        { img with otherSections := stripped }).map
        FileID.ConvertIdentifierToString =
      (FileID.ElfFileIdentifierFromMappedFile img).map
        FileID.ConvertIdentifierToString := by
  obtain ⟨vm, cls, note, text, others⟩ := img
  exact ⟨rfl, rfl⟩

lemma runEvents_nil (s : DumpStabsHandler) : runEvents [] s = s := rfl

lemma runEvents_cons (e : Event) (t : List Event) (s : DumpStabsHandler) :
    runEvents (e :: t) s = runEvents t (step e s).2 := rfl

lemma runEvents_append (t1 t2 : List Event) (s : DumpStabsHandler) :
    runEvents (t1 ++ t2) s = runEvents t2 (runEvents t1 s) := by
  induction t1 generalizing s with
  | nil => rfl
  | cons e t ih => rw [List.cons_append, runEvents_cons, runEvents_cons, ih]

lemma runOk_cons (e : Event) (t : List Event) (s : DumpStabsHandler)
    (h : runOk (e :: t) s = true) :
    (step e s).1 = true ∧ runOk t (step e s).2 = true := by
  rw [runOk] at h
  exact Bool.and_eq_true_iff.mp h

lemma traceBoundaries_cons (e : Event) (t : List Event) :
    traceBoundaries (e :: t) = traceBoundaries [e] ++ traceBoundaries t := by
  cases e <;> rfl

lemma step_boundaries (e : Event) (s : DumpStabsHandler)
    (h : (step e s).1 = true) :
    (step e s).2.boundaries_ = s.boundaries_ ++ traceBoundaries [e] := by
  cases e with
  | startCU n a b =>
      by_cases hc : s.in_compilation_unit_ <;>
        simp [step, DumpStabsHandler.StartCompilationUnit, hc,
          traceBoundaries] at h ⊢
  | endCU a =>
      by_cases hc : s.in_compilation_unit_ <;>
        simp [step, DumpStabsHandler.EndCompilationUnit, hc,
          traceBoundaries] at h ⊢
      cases hf : s.current_function_ <;>
        simp [DumpStabsHandler.closeFunction, hf]
  | startFunc n a =>
      cases hf : s.current_function_ <;>
        simp [step, DumpStabsHandler.StartFunction, hf, traceBoundaries]
          at h ⊢
  | endFunc a =>
      cases hf : s.current_function_ <;>
        simp [step, DumpStabsHandler.EndFunction, hf, traceBoundaries,
          DumpStabsHandler.closeFunction] at h ⊢
  | line a p n num =>
      cases hf : s.current_function_ <;>
        simp [step, DumpStabsHandler.Line, hf, traceBoundaries] at h ⊢
  | warning m => simp [step, traceBoundaries]

lemma runEvents_boundaries (t : List Event) (s : DumpStabsHandler)
    (h : runOk t s = true) :
    (runEvents t s).boundaries_ = s.boundaries_ ++ traceBoundaries t := by
  induction t generalizing s with
  | nil => simp [runEvents_nil, traceBoundaries]
  | cons e t ih =>
      obtain ⟨h1, h2⟩ := runOk_cons e t s h
      rw [runEvents_cons, ih _ h2, step_boundaries e s h1,
        traceBoundaries_cons e t, List.append_assoc]

lemma step_boundaries_mono (e : Event) (s : DumpStabsHandler) (a : Nat)
    (h : a ∈ s.boundaries_) : a ∈ (step e s).2.boundaries_ := by
  cases e with
  | startCU n ad b =>
      by_cases hc : s.in_compilation_unit_ <;>
        simp [step, DumpStabsHandler.StartCompilationUnit, hc, h]
  | endCU ad =>
      by_cases hc : s.in_compilation_unit_ <;>
        simp [step, DumpStabsHandler.EndCompilationUnit, hc,
          DumpStabsHandler.closeFunction, h]
      cases hf : s.current_function_ <;> simp [hf, h]
  | startFunc n ad =>
      cases hf : s.current_function_ <;>
        simp [step, DumpStabsHandler.StartFunction, hf, h]
  | endFunc ad =>
      cases hf : s.current_function_ <;>
        simp [step, DumpStabsHandler.EndFunction, hf,
          DumpStabsHandler.closeFunction, h]
  | line ad p n num =>
      cases hf : s.current_function_ <;>
        simp [step, DumpStabsHandler.Line, hf, h]
  | warning m => simpa [step] using h

lemma runEvents_boundaries_mono (t : List Event) (s : DumpStabsHandler)
    (a : Nat) (h : a ∈ s.boundaries_) :
    a ∈ (runEvents t s).boundaries_ := by
  induction t generalizing s with
  | nil => exact h
  | cons e t ih => exact ih _ (step_boundaries_mono e s a h)

lemma FindFile_functions (m : Module) (n : String) :
    (m.FindFile n).2.functions = m.functions := by
  rw [Module.FindFile]
  cases m.files.find? (fun f => f.name = n) <;> rfl

lemma step_module_functions (e : Event) (s : DumpStabsHandler) :
    (step e s).2.module_.functions = s.module_.functions := by
  cases e with
  | startCU n ad b =>
      by_cases hc : s.in_compilation_unit_ <;>
        simp [step, DumpStabsHandler.StartCompilationUnit, hc]
  | endCU ad =>
      by_cases hc : s.in_compilation_unit_ <;>
        simp [step, DumpStabsHandler.EndCompilationUnit, hc,
          DumpStabsHandler.closeFunction]
      cases hf : s.current_function_ <;> simp [hf]
  | startFunc n ad =>
      cases hf : s.current_function_ <;>
        simp [step, DumpStabsHandler.StartFunction, hf]
  | endFunc ad =>
      cases hf : s.current_function_ <;>
        simp [step, DumpStabsHandler.EndFunction, hf,
          DumpStabsHandler.closeFunction]
  | line ad p n num =>
      cases hf : s.current_function_ <;>
        simp [step, DumpStabsHandler.Line, hf]
      by_cases hp : s.current_source_file_name_ = some p <;>
        simp [hp, FindFile_functions]
  | warning m => rfl

lemma runEvents_module_functions (t : List Event) (s : DumpStabsHandler) :
    (runEvents t s).module_.functions = s.module_.functions := by
  induction t generalizing s with
  | nil => rfl
  | cons e t ih => rw [runEvents_cons, ih, step_module_functions]

lemma mem_finalize (s : DumpStabsHandler) (f : Module.Function)
    (hmod : s.module_.functions = [])
    (h : f ∈ s.Finalize.functions) :
    ∃ g ∈ s.functions_, g.retained = true ∧
      f = sizeFunction s.boundaries_ g := by
  rw [DumpStabsHandler.Finalize] at h
  simp only [hmod, List.nil_append, List.mem_map, List.mem_filter] at h
  obtain ⟨g, ⟨hg, hr⟩, rfl⟩ := h
  exact ⟨g, hg, hr, rfl⟩

lemma leastGreater_none (bs : List Nat) :
    ∀ x, leastGreater bs x = none → ∀ c ∈ bs, c ≤ x := by
  induction bs with
  | nil => intro x _ c hc; exact absurd hc (List.not_mem_nil c)
  | cons a bs ih =>
      intro x h c hc
      cases hrec : leastGreater bs x with
      | none =>
          rw [leastGreater, hrec] at h
          by_cases hxa : x < a
          · simp [hxa] at h
          · rcases List.mem_cons.mp hc with rfl | hc
            · omega
            · exact ih x hrec c hc
      | some c' =>
          rw [leastGreater, hrec] at h
          by_cases hxa : x < a <;> simp [hxa] at h

lemma leastGreater_some (bs : List Nat) :
    ∀ x b, leastGreater bs x = some b →
      x < b ∧ b ∈ bs ∧ ∀ c ∈ bs, x < c → b ≤ c := by
  induction bs with
  | nil => intro x b h; exact absurd h (by simp [leastGreater])
  | cons a bs ih =>
      intro x b h
      cases hrec : leastGreater bs x with
      | none =>
          rw [leastGreater, hrec] at h
          by_cases hxa : x < a
          · simp [hxa] at h
            subst h
            refine ⟨hxa, List.mem_cons_self _ _, ?_⟩
            intro c hc hxc
            rcases List.mem_cons.mp hc with rfl | hc
            · exact Nat.le_refl c
            · exact absurd hxc
                (Nat.not_lt.mpr (leastGreater_none bs x hrec c hc))
          · simp [hxa] at h
      | some c' =>
          rw [leastGreater, hrec] at h
          obtain ⟨hx', hmem', hmin'⟩ := ih x c' hrec
          by_cases hxa : x < a
          · simp [hxa] at h
            subst h
            refine ⟨by omega, ?_, ?_⟩
            · rcases Nat.le_total a c' with hle | hle
              · rw [Nat.min_eq_left hle]; exact List.mem_cons_self _ _
              · rw [Nat.min_eq_right hle]; exact List.mem_cons_of_mem _ hmem'
            · intro c hc hxc
              rcases List.mem_cons.mp hc with rfl | hc
              · exact Nat.min_le_left _ _
              · exact Nat.le_trans (Nat.min_le_right _ _) (hmin' c hc hxc)
          · simp [hxa] at h
            subst h
            refine ⟨hx', List.mem_cons_of_mem _ hmem', ?_⟩
            intro c hc hxc
            rcases List.mem_cons.mp hc with rfl | hc
            · omega
            · exact hmin' c hc hxc

lemma leastGreater_le_mem (bs : List Nat) (x a : Nat) (ha : a ∈ bs)
    (hx : x < a) : ∃ b, leastGreater bs x = some b ∧ b ≤ a := by
  cases h : leastGreater bs x with
  | none => exact absurd hx (Nat.not_lt.mpr (leastGreater_none bs x h a ha))
  | some b =>
      obtain ⟨_, _, hmin⟩ := leastGreater_some bs x b h
      exact ⟨b, rfl, hmin a ha hx⟩

lemma sizeFunction_address (bs : List Nat) (g : Module.Function) :
    (sizeFunction bs g).address = g.address := rfl

lemma sizeFunction_size (bs : List Nat) (g : Module.Function) :
    (sizeFunction bs g).size = finalSize bs g.address := rfl

lemma sizeFunction_lines (bs : List Nat) (g : Module.Function) :
    (sizeFunction bs g).lines =
      sizeLines ((g.address + finalSize bs g.address) % U64)
        (sortLines g.lines) := rfl

lemma initHandler_boundaries : initHandler.boundaries_ = [] := rfl

/-- Claim C1 (corrected): after `Finalize`, every committed Function's size
is the smallest boundary strictly greater than its address minus that
address, the boundary set being every `StartFunction` address, every
`EndFunction` address, and every `EndCompilationUnit` address registered by
the run — `Line` addresses are not boundaries; when no strictly greater
boundary exists the Function receives exactly the fallback size
`0x10000000`, which exceeds `2 ^ 20`. -/
theorem function_size_nearest_boundary (t : List Event)
    (h : runOk t initHandler = true) :
    (∀ f ∈ (finalizeRun t).functions,
       (∀ b, leastGreater (traceBoundaries t) f.address = some b →
          f.size = b - f.address ∧ f.address < b ∧ b ∈ traceBoundaries t ∧
            ∀ c ∈ traceBoundaries t, f.address < c → b ≤ c) ∧
       (leastGreater (traceBoundaries t) f.address = none →
          f.size = kFallbackSize ∧
            ∀ c ∈ traceBoundaries t, c ≤ f.address)) ∧
    kFallbackSize = 0x10000000 ∧ 2 ^ 20 < kFallbackSize := by
  refine ⟨?_, rfl, by decide⟩
  intro f hf
  have hmod : (runEvents t initHandler).module_.functions = [] := by
    rw [runEvents_module_functions]; rfl
  obtain ⟨g, hg, hr, rfl⟩ := mem_finalize _ f hmod hf
  have hb : (runEvents t initHandler).boundaries_ = traceBoundaries t := by
    rw [runEvents_boundaries t initHandler h, initHandler_boundaries,
      List.nil_append]
  rw [hb, sizeFunction_address, sizeFunction_size]
  constructor
  · intro b hlg
    obtain ⟨h1, h2, h3⟩ := leastGreater_some _ _ _ hlg
    refine ⟨?_, h1, h2, h3⟩
    rw [finalSize, hlg]
  · intro hlg
    exact ⟨by rw [finalSize, hlg], leastGreater_none _ _ hlg⟩

/-- Claim C1 witness: a one-function trace; the function's size is bounded
by its `EndFunction` address. -/
theorem function_size_nearest_boundary_witness :
    runOk [Event.startCU "u" 0 "", Event.startFunc "main" 100,
      Event.endFunc 200, Event.endCU 300] initHandler = true ∧
    ((∀ f ∈ (finalizeRun [Event.startCU "u" 0 "",
        Event.startFunc "main" 100, Event.endFunc 200,
        Event.endCU 300]).functions,
       (∀ b, leastGreater (traceBoundaries [Event.startCU "u" 0 "",
            Event.startFunc "main" 100, Event.endFunc 200,
            Event.endCU 300]) f.address = some b →
          f.size = b - f.address ∧ f.address < b ∧
            b ∈ traceBoundaries [Event.startCU "u" 0 "",
              Event.startFunc "main" 100, Event.endFunc 200,
              Event.endCU 300] ∧
            ∀ c ∈ traceBoundaries [Event.startCU "u" 0 "",
              Event.startFunc "main" 100, Event.endFunc 200,
              Event.endCU 300], f.address < c → b ≤ c) ∧
       (leastGreater (traceBoundaries [Event.startCU "u" 0 "",
            Event.startFunc "main" 100, Event.endFunc 200,
            Event.endCU 300]) f.address = none →
          f.size = kFallbackSize ∧
            ∀ c ∈ traceBoundaries [Event.startCU "u" 0 "",
              Event.startFunc "main" 100, Event.endFunc 200,
              Event.endCU 300], c ≤ f.address)) ∧
     kFallbackSize = 0x10000000 ∧ 2 ^ 20 < kFallbackSize) :=
  ⟨by decide,
   function_size_nearest_boundary [Event.startCU "u" 0 "",
     Event.startFunc "main" 100, Event.endFunc 200, Event.endCU 300]
     (by decide)⟩

/-- Claim C1 counterexample: on the trace
`StartCU@0, StartFunction f@10, Line@14, EndFunction@30, EndCU@40` the
committed function has size `20` (bounded by the `EndFunction` address
`30`), but the claim's boundary set (function starts, line starts,
compilation-unit ends) predicts size `14 - 10 = 4`: a `Line` start does not
limit the function, and the `EndFunction` address does. -/
theorem function_size_claim_boundaries_refuted :
    ¬ (∀ f ∈ (finalizeRun [Event.startCU "u" 0 "",
          Event.startFunc "f" 10, Event.line 14 0 "a.c" 1,
          Event.endFunc 30, Event.endCU 40]).functions,
        f.size = finalSize (c1ClaimBoundaries [Event.startCU "u" 0 "",
          Event.startFunc "f" 10, Event.line 14 0 "a.c" 1,
          Event.endFunc 30, Event.endCU 40]) f.address) := by
  decide

lemma getLast?_cons_of_ne_nil (a : Module.Line) (l : List Module.Line)
    (h : l ≠ []) : (a :: l).getLast? = l.getLast? := by
  cases l with
  | nil => exact absurd rfl h
  | cons y ys => exact List.getLast?_cons_cons

lemma sizeLines_getLast (fend : Nat) :
    ∀ (L : List Module.Line) (l : Module.Line), L.getLast? = some l →
      (sizeLines fend L).getLast? =
        some { l with size := wsub fend l.address } := by
  intro L
  induction L with
  | nil => intro l h; exact absurd h (by simp)
  | cons x L ih =>
      intro l h
      cases L with
      | nil =>
          simp only [List.getLast?_singleton, Option.some.injEq] at h
          subst h
          rfl
      | cons y L' =>
          rw [List.getLast?_cons_cons] at h
          have hne : sizeLines fend (y :: L') ≠ [] := by
            cases L' <;> simp [sizeLines]
          rw [show sizeLines fend (x :: y :: L') =
            { x with size := wsub y.address x.address } ::
              sizeLines fend (y :: L') from rfl]
          rw [getLast?_cons_of_ne_nil _ _ hne]
          exact ih l h

/-- Claim C6: after `Finalize`, for every committed Function with at least
one Line, the last Line ends exactly at the Function's end: in `uint64_t`
arithmetic, `last.address + last.size = function.address + function.size`. -/
theorem last_line_ends_at_function_end (t : List Event) :
    ∀ f ∈ (finalizeRun t).functions, ∀ l, f.lines.getLast? = some l →
      (l.address + l.size) % U64 = (f.address + f.size) % U64 := by
  intro f hf l hl
  have hmod : (runEvents t initHandler).module_.functions = [] := by
    rw [runEvents_module_functions]; rfl
  obtain ⟨g, hg, hr, rfl⟩ := mem_finalize _ f hmod hf
  rw [sizeFunction_lines] at hl
  cases h0 : (sortLines g.lines).getLast? with
  | none =>
      have hnil : sortLines g.lines = [] := List.getLast?_eq_none_iff.mp h0
      rw [hnil] at hl
      exact absurd hl (by simp [sizeLines])
  | some l0 =>
      rw [sizeLines_getLast _ _ l0 h0] at hl
      injection hl with hl
      subst hl
      rw [sizeFunction_address, sizeFunction_size]
      show (l0.address + wsub ((g.address +
        finalSize (runEvents t initHandler).boundaries_ g.address) % U64)
          l0.address) % U64 = _
      simp only [wsub, U64]
      omega

/-- Claim C6 witness: a function with two lines; its last line, at `20`
with size `10`, ends exactly at the function's end `10 + 20 = 30`. -/
theorem last_line_ends_at_function_end_witness :
    (20 + 10) % U64 = (10 + 20) % U64 :=
  last_line_ends_at_function_end [Event.startCU "u" 0 "",
    Event.startFunc "f" 10, Event.line 10 0 "a.c" 1,
    Event.line 20 0 "a.c" 2, Event.endFunc 30, Event.endCU 40]
    { name := "f", address := 10, size := 20,
      lines := [{ address := 10, size := 10, file := 0, number := 1 },
                { address := 20, size := 10, file := 0, number := 2 }],
      retained := true }
    (by decide)
    { address := 20, size := 10, file := 0, number := 2 }
    (by decide)

lemma artifact_invariant_step (a : Nat) (e : Event)
    (he : isStartFuncAt a e = false) (s : DumpStabsHandler)
    (h1 : ∀ g ∈ s.functions_, g.address = a → g.retained = false)
    (h2 : ∀ f, s.current_function_ = some f → f.address = a →
      f.retained = false) :
    (∀ g ∈ (step e s).2.functions_, g.address = a → g.retained = false) ∧
    (∀ f, (step e s).2.current_function_ = some f → f.address = a →
      f.retained = false) := by
  cases e with
  | startCU n ad b =>
      by_cases hc : s.in_compilation_unit_ <;>
        simp only [step, DumpStabsHandler.StartCompilationUnit, hc,
          if_true, if_false, Bool.false_eq_true, ite_true, ite_false] <;>
        exact ⟨h1, h2⟩
  | endCU ad =>
      by_cases hc : s.in_compilation_unit_
      · cases hcf : s.current_function_ with
        | none =>
            simp only [step, DumpStabsHandler.EndCompilationUnit, hc,
              DumpStabsHandler.closeFunction, hcf, ite_true]
            exact ⟨h1, by simp⟩
        | some f0 =>
            simp only [step, DumpStabsHandler.EndCompilationUnit, hc,
              DumpStabsHandler.closeFunction, hcf, ite_true]
            refine ⟨?_, by simp⟩
            intro g hg ha
            rcases List.mem_append.mp hg with hg | hg
            · exact h1 g hg ha
            · rw [List.mem_singleton.mp hg] at ha ⊢
              exact h2 f0 hcf ha
      · simp only [step, DumpStabsHandler.EndCompilationUnit, hc,
          Bool.false_eq_true, ite_false]
        exact ⟨h1, h2⟩
  | startFunc n ad =>
      cases hcf : s.current_function_ with
      | some f0 =>
          simp only [step, DumpStabsHandler.StartFunction, hcf]
          exact ⟨h1, fun f hf => h2 f (hcf.trans hf)⟩
      | none =>
          have had : ad ≠ a := by
            simpa [isStartFuncAt] using he
          simp only [step, DumpStabsHandler.StartFunction, hcf]
          refine ⟨h1, ?_⟩
          intro f hf ha
          rw [Option.some.injEq] at hf
          rw [← hf] at ha
          exact absurd ha had
  | endFunc ad =>
      cases hcf : s.current_function_ with
      | none =>
          simp only [step, DumpStabsHandler.EndFunction, hcf]
          exact ⟨h1, fun f hf => h2 f (hcf.trans hf)⟩
      | some f0 =>
          simp only [step, DumpStabsHandler.EndFunction, hcf,
            DumpStabsHandler.closeFunction]
          refine ⟨?_, by simp⟩
          intro g hg ha
          rcases List.mem_append.mp hg with hg | hg
          · exact h1 g hg ha
          · rw [List.mem_singleton.mp hg] at ha ⊢
            exact h2 f0 hcf ha
  | line ad p n num =>
      cases hcf : s.current_function_ with
      | none =>
          simp only [step, DumpStabsHandler.Line, hcf]
          exact ⟨h1, fun f hf => h2 f (hcf.trans hf)⟩
      | some f0 =>
          simp only [step, DumpStabsHandler.Line, hcf]
          refine ⟨h1, ?_⟩
          intro f hf ha
          rw [Option.some.injEq] at hf
          rw [← hf] at ha ⊢
          exact h2 f0 hcf ha
  | warning m => exact ⟨h1, h2⟩

lemma artifact_invariant_run (a : Nat) (t : List Event)
    (hnew : ∀ e ∈ t, isStartFuncAt a e = false) :
    ∀ s : DumpStabsHandler,
      (∀ g ∈ s.functions_, g.address = a → g.retained = false) →
      (∀ f, s.current_function_ = some f → f.address = a →
        f.retained = false) →
      (∀ g ∈ (runEvents t s).functions_, g.address = a →
        g.retained = false) := by
  induction t with
  | nil => intro s h1 _; exact h1
  | cons e t ih =>
      intro s h1 h2
      have he : isStartFuncAt a e = false := hnew e (by simp)
      have hnt : ∀ e' ∈ t, isStartFuncAt a e' = false :=
        fun e' he' => hnew e' (by simp [he'])
      obtain ⟨h1', h2'⟩ := artifact_invariant_step a e he s h1 h2
      exact ih hnt (step e s).2 h1' h2'

/-- Claim C5: a Function started at an address at or before its compilation
unit's recorded base address is excluded from the module committed by
`Finalize`, yet its start address still enters the boundary set and
therefore still limits the computed size of every committed Function at a
lower address. -/
theorem artifact_function_excluded_still_bounds (t1 t2 : List Event)
    (nm : String) (a : Nat)
    (hcu : (runEvents t1 initHandler).in_compilation_unit_ = true)
    (hnf : (runEvents t1 initHandler).current_function_ = none)
    (hbase : a ≤ (runEvents t1 initHandler).comp_unit_base_address_)
    (hold : ∀ g ∈ (runEvents t1 initHandler).functions_, g.address ≠ a)
    (hnew : ∀ e ∈ t2, isStartFuncAt a e = false) :
    (∀ f ∈ (finalizeRun (t1 ++ Event.startFunc nm a :: t2)).functions,
        f.address ≠ a) ∧
    a ∈ (runEvents (t1 ++ Event.startFunc nm a :: t2)
        initHandler).boundaries_ ∧
    (∀ f ∈ (finalizeRun (t1 ++ Event.startFunc nm a :: t2)).functions,
        f.address < a → f.size ≤ a - f.address) := by
  have hrun : runEvents (t1 ++ Event.startFunc nm a :: t2) initHandler =
      runEvents t2 (step (Event.startFunc nm a)
        (runEvents t1 initHandler)).2 := by
    rw [runEvents_append, runEvents_cons]
  have hstep : (step (Event.startFunc nm a)
      (runEvents t1 initHandler)).2 =
      { runEvents t1 initHandler with
          current_function_ := some
            { name := nm, address := a, size := 0, lines := [],
              retained := decide ((runEvents t1
                initHandler).comp_unit_base_address_ < a) },
          boundaries_ :=
            (runEvents t1 initHandler).boundaries_ ++ [a] } := by
    simp [step, DumpStabsHandler.StartFunction, hnf]
  have hret : decide ((runEvents t1
      initHandler).comp_unit_base_address_ < a) = false := by
    simp
    omega
  have hmod : (runEvents (t1 ++ Event.startFunc nm a :: t2)
      initHandler).module_.functions = [] := by
    rw [hrun, runEvents_module_functions, hstep]
    show (runEvents t1 initHandler).module_.functions = []
    rw [runEvents_module_functions]; rfl
  have hinv : ∀ g ∈ (runEvents (t1 ++ Event.startFunc nm a :: t2)
      initHandler).functions_, g.address = a → g.retained = false := by
    rw [hrun, hstep]
    apply artifact_invariant_run a t2 hnew
    · intro g hg ha
      exact absurd ha (hold g hg)
    · intro f hf ha
      rw [Option.some.injEq] at hf
      rw [← hf]
      exact hret
  have hmem : a ∈ (runEvents (t1 ++ Event.startFunc nm a :: t2)
      initHandler).boundaries_ := by
    rw [hrun]
    apply runEvents_boundaries_mono
    rw [hstep]
    exact List.mem_append_right _ (List.mem_singleton.mpr rfl)
  refine ⟨?_, hmem, ?_⟩
  · intro f hf ha
    obtain ⟨g, hg, hr, rfl⟩ := mem_finalize _ f hmod hf
    rw [sizeFunction_address] at ha
    rw [hinv g hg ha] at hr
    exact Bool.false_ne_true hr
  · intro f hf hlt
    obtain ⟨g, hg, hr, rfl⟩ := mem_finalize _ f hmod hf
    rw [sizeFunction_address] at hlt ⊢
    rw [sizeFunction_size]
    obtain ⟨b, hb, hba⟩ := leastGreater_le_mem _ g.address a hmem hlt
    rw [finalSize, hb]
    show b - g.address ≤ a - g.address
    omega

/-- Claim C5 witness: in a unit based at `20`, the artifact function at
`10` never reaches the module, its address `10` is a boundary, and the
later genuine function at `3` is limited to size at most `7`. -/
theorem artifact_function_excluded_still_bounds_witness :
    (∀ f ∈ (finalizeRun ([Event.startCU "u" 20 ""] ++
        Event.startFunc "f" 10 :: [Event.endFunc 0, Event.endCU 30,
          Event.startCU "v" 0 "", Event.startFunc "g" 3,
          Event.endFunc 0, Event.endCU 8])).functions,
        f.address ≠ 10) ∧
    10 ∈ (runEvents ([Event.startCU "u" 20 ""] ++
        Event.startFunc "f" 10 :: [Event.endFunc 0, Event.endCU 30,
          Event.startCU "v" 0 "", Event.startFunc "g" 3,
          Event.endFunc 0, Event.endCU 8]) initHandler).boundaries_ ∧
    (∀ f ∈ (finalizeRun ([Event.startCU "u" 20 ""] ++
        Event.startFunc "f" 10 :: [Event.endFunc 0, Event.endCU 30,
          Event.startCU "v" 0 "", Event.startFunc "g" 3,
          Event.endFunc 0, Event.endCU 8])).functions,
        f.address < 10 → f.size ≤ 10 - f.address) :=
  artifact_function_excluded_still_bounds [Event.startCU "u" 20 ""]
    [Event.endFunc 0, Event.endCU 30, Event.startCU "v" 0 "",
      Event.startFunc "g" 3, Event.endFunc 0, Event.endCU 8]
    "f" 10 (by decide) (by decide) (by decide) (by decide) (by decide)

lemma find?_append_none (p : Module.File → Bool)
    (l1 l2 : List Module.File) (h : l1.find? p = none) :
    (l1 ++ l2).find? p = l2.find? p := by
  induction l1 with
  | nil => rfl
  | cons x l ih =>
      cases hp : p x with
      | true => rw [List.find?_cons_of_pos _ hp] at h; simp at h
      | false =>
          have hp' : ¬ p x = true := by simp [hp]
          rw [List.find?_cons_of_neg _ hp'] at h
          rw [List.cons_append, List.find?_cons_of_neg _ hp']
          exact ih h

lemma FindFile_fst_idem (m : Module) (n : String) :
    ((m.FindFile n).2.FindFile n).1 = (m.FindFile n).1 := by
  cases hf : m.files.find? (fun f => f.name = n) with
  | some f => simp [Module.FindFile, hf]
  | none =>
      have hx : (m.files ++
            [({ id := m.nextFileId, name := n } : Module.File)]).find?
          (fun f => f.name = n) =
            some ({ id := m.nextFileId, name := n } : Module.File) := by
        rw [find?_append_none _ _ _ hf]
        simp
      simp [Module.FindFile, hf, hx]

lemma line_line_same_file (s : DumpStabsHandler) (f : Module.Function)
    (p1 p2 a1 a2 : Nat) (nm : String) (n1 n2 : Int)
    (hf : s.current_function_ = some f)
    (hc : s.current_source_file_name_ ≠ some p1)
    (hp : p1 ≠ p2) :
    ∃ fid,
      (((s.Line a1 p1 nm n1).2.Line a2 p2 nm n2).2.current_function_).map
          (fun g => g.lines.map (fun l => l.file)) =
        some (f.lines.map (fun l => l.file) ++ [fid, fid]) := by
  refine ⟨(s.module_.FindFile nm).1, ?_⟩
  have h1 : (s.Line a1 p1 nm n1).2 =
      { s with
          module_ := (s.module_.FindFile nm).2,
          current_source_file_ := (s.module_.FindFile nm).1,
          current_source_file_name_ := some p1,
          current_function_ := some
            { f with lines := f.lines ++
                [{ address := a1, size := 0,
                   file := (s.module_.FindFile nm).1, number := n1 }] } } := by
    simp [DumpStabsHandler.Line, hf, hc]
  rw [h1]
  have hp2 : ¬ (some p1 = some p2) := by simp [hp]
  simp [DumpStabsHandler.Line, hp2, FindFile_fst_idem]

lemma FindFile_files_nodup (m : Module) (n : String)
    (h : (m.files.map (fun f => f.name)).Nodup) :
    ((m.FindFile n).2.files.map (fun f => f.name)).Nodup := by
  cases hf : m.files.find? (fun f => f.name = n) with
  | some f => simpa [Module.FindFile, hf] using h
  | none =>
      have hnot : n ∉ m.files.map (fun f => f.name) := by
        intro hmem
        rcases List.mem_map.mp hmem with ⟨f, hfm, hfn⟩
        have := List.find?_eq_none.mp hf f hfm
        simp [hfn] at this
      simp only [Module.FindFile, hf, List.map_append, List.map_cons,
        List.map_nil]
      rw [List.nodup_append]
      refine ⟨h, by simp, ?_⟩
      intro x hx
      simp only [List.mem_cons, List.not_mem_nil, or_false]
      intro hxn
      rw [hxn] at hx
      exact hnot hx

lemma step_files_nodup (e : Event) (s : DumpStabsHandler)
    (h : (s.module_.files.map (fun f => f.name)).Nodup) :
    ((step e s).2.module_.files.map (fun f => f.name)).Nodup := by
  cases e with
  | startCU n ad b =>
      by_cases hc : s.in_compilation_unit_ <;>
        simpa [step, DumpStabsHandler.StartCompilationUnit, hc] using h
  | endCU ad =>
      by_cases hc : s.in_compilation_unit_
      · cases hcf : s.current_function_ <;>
          simpa [step, DumpStabsHandler.EndCompilationUnit, hc,
            DumpStabsHandler.closeFunction, hcf] using h
      · simpa [step, DumpStabsHandler.EndCompilationUnit, hc] using h
  | startFunc n ad =>
      cases hcf : s.current_function_ <;>
        simpa [step, DumpStabsHandler.StartFunction, hcf] using h
  | endFunc ad =>
      cases hcf : s.current_function_ <;>
        simpa [step, DumpStabsHandler.EndFunction, hcf,
          DumpStabsHandler.closeFunction] using h
  | line ad p n num =>
      cases hcf : s.current_function_ with
      | none => simpa [step, DumpStabsHandler.Line, hcf] using h
      | some f0 =>
          by_cases hp : s.current_source_file_name_ = some p
          · simpa [step, DumpStabsHandler.Line, hcf, hp] using h
          · simp only [step, DumpStabsHandler.Line, hcf, if_neg hp,
              ite_false]
            exact FindFile_files_nodup s.module_ n h
  | warning m => exact h

lemma runEvents_files_nodup (t : List Event) (s : DumpStabsHandler)
    (h : (s.module_.files.map (fun f => f.name)).Nodup) :
    ((runEvents t s).module_.files.map (fun f => f.name)).Nodup := by
  induction t generalizing s with
  | nil => exact h
  | cons e t ih => exact ih _ (step_files_nodup e s h)

/-- Claim C7: the Symbol Model interns Files by name: after any trace the
module holds at most one File entity per distinct file-name string, and two
consecutive `Line` calls whose file-name strings are textually identical but
whose `.stabstr` pointers differ (so the pointer-equality fast path misses)
append two Lines that reference the same File entity. -/
theorem file_entity_interned_by_name (t : List Event) :
    ((runEvents t initHandler).module_.files.map
       (fun f => f.name)).Nodup ∧
    (∀ (f : Module.Function) (p1 p2 a1 a2 : Nat) (nm : String)
       (n1 n2 : Int),
      (runEvents t initHandler).current_function_ = some f →
      (runEvents t initHandler).current_source_file_name_ ≠ some p1 →
      p1 ≠ p2 →
      ∃ fid,
        ((((runEvents t initHandler).Line a1 p1 nm n1).2.Line
            a2 p2 nm n2).2.current_function_).map
            (fun g => g.lines.map (fun l => l.file)) =
          some (f.lines.map (fun l => l.file) ++ [fid, fid])) := by
  constructor
  · exact runEvents_files_nodup t initHandler (by simp [initHandler])
  · intro f p1 p2 a1 a2 nm n1 n2 hf hc hp
    exact line_line_same_file _ f p1 p2 a1 a2 nm n1 n2 hf hc hp

/-- Claim C7 witness: inside an open function, two `Line` calls naming
`"a.c"` from the distinct pointers `1` and `2` yield lines sharing one File
entity. -/
theorem file_entity_interned_by_name_witness :
    (((runEvents [Event.startCU "u" 0 "", Event.startFunc "f" 10]
        initHandler).module_.files.map (fun f => f.name)).Nodup) ∧
    (∃ fid,
      ((((runEvents [Event.startCU "u" 0 "", Event.startFunc "f" 10]
            initHandler).Line 11 1 "a.c" 7).2.Line
            12 2 "a.c" 8).2.current_function_).map
          (fun g => g.lines.map (fun l => l.file)) =
        some (([] : List Module.Line).map (fun l => l.file) ++
          [fid, fid])) :=
  ⟨(file_entity_interned_by_name [Event.startCU "u" 0 "",
      Event.startFunc "f" 10]).1,
   (file_entity_interned_by_name [Event.startCU "u" 0 "",
      Event.startFunc "f" 10]).2
     { name := "f", address := 10, size := 0, lines := [],
       retained := true }
     1 2 11 12 "a.c" 7 8 (by decide) (by decide) (by decide)⟩

/-- Claim C8: protocol violations are reported by the boolean return value,
never by an abort: `StartCompilationUnit` returns false exactly when a
compilation unit is already open, and `Line` returns false exactly when no
Function is open; in every other case these callbacks return true. -/
theorem protocol_violations_return_false (s : DumpStabsHandler)
    (nm bd fn : String) (aCU aL p : Nat) (num : Int) :
    ((s.StartCompilationUnit nm aCU bd).1 = false ↔
      s.in_compilation_unit_ = true) ∧
    ((s.Line aL p fn num).1 = false ↔ s.current_function_ = none) := by
  constructor
  · by_cases hc : s.in_compilation_unit_ <;>
      simp [DumpStabsHandler.StartCompilationUnit, hc]
  · cases hcf : s.current_function_ <;>
      simp [DumpStabsHandler.Line, hcf]

end Breakpad
